import Mathlib

/-!
Verification development for the transaction matcher
(`transaction_matcher.py` with parsing helpers from `utils.py`).

Modelling conventions of the shallow embedding:
- Currency values (Python floats holding dollar amounts) are modelled as
  exact rationals.  All comparisons in the code are against decimal
  constants, which the embedding writes as the corresponding rationals.
- Python strings are Lean `String`; per-character operations work on
  `List Char`.  Only ASCII case mapping is modelled (the data the program
  handles is ASCII sheet text).
- Python `datetime` values normalized to midnight are modelled as a
  calendar date `PyDate`; subtraction in days goes through the proleptic
  Gregorian ordinal, exactly as CPython computes `(d1 - d2).days` for
  midnight datetimes.
- Python `float(s)` literal parsing is modelled for finite decimal
  literals with optional sign, decimal point and exponent.  Underscore
  separators and the special values inf/nan are treated as unparseable;
  no input in this development exercises them.
-/

section TransactionMatcher

attribute [local semireducible] Rat.add Rat.mul Rat.sub Rat.inv

/-- Whitespace characters stripped by Python str.strip (ASCII subset). -/
def isPySpace (c : Char) : Bool :=
  c = ' ' || c = '\t' || c = '\n' || c = '\r' || c = '\x0b' || c = '\x0c'

/-- Strip leading and trailing whitespace from a character list. -/
def pyStripChars (l : List Char) : List Char :=
  ((l.dropWhile isPySpace).reverse.dropWhile isPySpace).reverse

/-- Python str.strip on a string. -/
def pyStrip (s : String) : String :=
  ⟨pyStripChars s.toList⟩

/-- Python str.upper for ASCII text. -/
def pyUpper (s : String) : String :=
  ⟨s.toList.map Char.toUpper⟩

/-- Value of a digit string read in base 10. -/
def digitsToNat (l : List Char) : ℕ :=
  l.foldl (fun n c => 10 * n + (c.toNat - 48)) 0

/-- Split a character list at every occurrence of the separator. -/
def splitOnSep (sep : Char) : List Char → List (List Char)
  | [] => [[]]
  | c :: rest =>
    match splitOnSep sep rest with
    | [] => if c = sep then [[], []] else [[c]]
    | h :: t => if c = sep then [] :: h :: t else (c :: h) :: t

/-- Calendar date with year, month, day; models a Python datetime at midnight. -/
structure PyDate where
  year : ℕ
  month : ℕ
  day : ℕ
deriving DecidableEq

/-- Gregorian leap-year test. -/
def isLeapYear (y : ℕ) : Bool :=
  y % 4 = 0 && (y % 100 ≠ 0 || y % 400 = 0)

/-- Number of days in a month of a given year. -/
def daysInMonth (y m : ℕ) : ℕ :=
  if m = 2 then (if isLeapYear y then 29 else 28)
  else if m = 4 ∨ m = 6 ∨ m = 9 ∨ m = 11 then 30
  else 31

/-- Days in the year before the first day of month m. -/
def daysBeforeMonth (y m : ℕ) : ℕ :=
  (List.range (m - 1)).foldl (fun acc i => acc + daysInMonth y (i + 1)) 0

/-- Proleptic Gregorian ordinal of a date (day 1 is 0001-01-01), as in
CPython datetime.toordinal. -/
def toOrdinal (d : PyDate) : ℕ :=
  365 * (d.year - 1) + (d.year - 1) / 4 - (d.year - 1) / 100 + (d.year - 1) / 400
    + daysBeforeMonth d.year d.month + d.day

/-- Absolute difference in days between two midnight dates, as computed by
abs((d1 - d2).days) on Python datetimes. -/
def dateDiffDays (a b : PyDate) : ℕ :=
  ((toOrdinal a : ℤ) - (toOrdinal b : ℤ)).natAbs

/-- Slot of a numeric date format: year, month or day field. -/
inductive DSlot
  | Y
  | M
  | D
deriving DecidableEq

/-- Field shape accepted by strptime: a 4-digit year, or a 1-2 digit
month/day, all digits. -/
def slotOk (s : DSlot) (p : List Char) : Bool :=
  p.all Char.isDigit &&
    (match s with
     | .Y => p.length = 4
     | _ => p.length = 1 || p.length = 2)

/-- Range validation performed by the datetime constructor. -/
def validDate (y m d : ℕ) : Option PyDate :=
  if 1 ≤ y ∧ 1 ≤ m ∧ m ≤ 12 ∧ 1 ≤ d ∧ d ≤ daysInMonth y m then
    some ⟨y, m, d⟩
  else none

/-- Try one three-field numeric date format with a single separator
character, mirroring strptime on a full-string match. -/
def tryFmt (s1 s2 s3 : DSlot) (sep : Char) (l : List Char) : Option PyDate :=
  match splitOnSep sep l with
  | [p1, p2, p3] =>
    if slotOk s1 p1 && slotOk s2 p2 && slotOk s3 p3 then
      let get : DSlot → ℕ := fun sl =>
        if s1 = sl then digitsToNat p1
        else if s2 = sl then digitsToNat p2
        else digitsToNat p3
      validDate (get .Y) (get .M) (get .D)
    else none
  | _ => none

/-- parse_date from utils.py: tries the formats Y-m-d, m/d/Y, m-d-Y,
Y/m/d, d/m/Y in order on the stripped string, returning none when no
format matches (midnight normalization is implicit in PyDate). -/
def parse_date (date_str : String) : Option PyDate :=
  if date_str = "" then none
  else
    let t := pyStripChars date_str.toList
    (tryFmt .Y .M .D '-' t) <|> (tryFmt .M .D .Y '/' t) <|>
      (tryFmt .M .D .Y '-' t) <|> (tryFmt .Y .M .D '/' t) <|>
      (tryFmt .D .M .Y '/' t)

/-- Exponent part of a Python float literal applied to a mantissa. -/
def expPart (mant : ℚ) (r : List Char) : Option ℚ :=
  let es : ℤ × List Char :=
    match r with
    | '+' :: t => (1, t)
    | '-' :: t => (-1, t)
    | t => (1, t)
  if es.2 ≠ [] ∧ es.2.all Char.isDigit then
    some (mant * (10 : ℚ) ^ (es.1 * (digitsToNat es.2 : ℤ)))
  else none

/-- Python float(s) on a finite decimal literal: optional sign, digits
with optional decimal point, optional exponent.  Returns none exactly
when Python raises ValueError (modulo the conventions noted above). -/
def pyFloat (l : List Char) : Option ℚ :=
  let sg : ℚ × List Char :=
    match l with
    | '+' :: r => (1, r)
    | '-' :: r => (-1, r)
    | r => (1, r)
  let ip := sg.2.takeWhile Char.isDigit
  let r1 := sg.2.dropWhile Char.isDigit
  let fpr : List Char × List Char :=
    match r1 with
    | '.' :: r1t => (r1t.takeWhile Char.isDigit, r1t.dropWhile Char.isDigit)
    | _ => ([], r1)
  let fp := fpr.1
  if ip = [] ∧ fp = [] then none
  else
    let mant : ℚ := sg.1 * ((digitsToNat ip : ℚ) + (digitsToNat fp : ℚ) / (10 : ℚ) ^ fp.length)
    match fpr.2 with
    | [] => some mant
    | 'e' :: r3 => expPart mant r3
    | 'E' :: r3 => expPart mant r3
    | _ => none

/-- Remove every dollar sign and comma, as the two str.replace calls do. -/
def removeDollarComma (l : List Char) : List Char :=
  l.filter (fun c => c ≠ '$' ∧ c ≠ ',')

/-- parse_amount from utils.py: strips, handles accounting-parenthesis and
leading-minus negativity, removes currency symbols and commas, and falls
back to 0 when the remainder is empty or unparseable. -/
def parse_amount (amount_value : String) : ℚ :=
  let s0 := pyStripChars amount_value.toList
  let ns : Bool × List Char :=
    if s0.head? = some '(' ∧ s0.getLast? = some ')' then (true, (s0.drop 1).dropLast)
    else
      match s0 with
      | '-' :: r => (true, r)
      | _ => (false, s0)
  let s2 := pyStripChars (removeDollarComma ns.2)
  if s2 = [] then 0
  else
    match pyFloat s2 with
    | some a => if ns.1 then -a else a
    | none => 0

/-- safe_float from transaction_matcher.py: float conversion of a cell
after removing dollar signs and commas, 0.0 on empty or unparseable
input (the underscore-prefixed source name is not a valid Lean name). -/
def safe_float (value : String) : ℚ :=
  if value = "" then 0
  else
    match pyFloat (pyStripChars (removeDollarComma value.toList)) with
    | some a => a
    | none => 0

/-- Amount tolerance in dollars for a candidate pair. -/
def AMOUNT_MATCHING_TOLERANCE : ℚ := 3

/-- Date window in days for a candidate pair. -/
def DATE_MATCHING_WINDOW_DAYS : ℕ := 30

/-- Score at or above which an assignment is classified matched. -/
def CONFIDENCE_THRESHOLD_HIGH : ℤ := 60

/-- Score below which a candidate is not assigned at all. -/
def CONFIDENCE_THRESHOLD_LOW : ℤ := 40

/-- calculate_confidence_score from transaction_matcher.py.  The early
return 0 of the Python code is written as the leading branch; the three
amount brackets, the date proximity score, the same-day bonus and the
final cap at 100 follow the source line by line. -/
def calculate_confidence_score (trans_amount order_total : ℚ)
    (date_diff_days : ℕ) : ℤ :=
  let amount_diff : ℚ := |trans_amount - order_total|
  if amount_diff > AMOUNT_MATCHING_TOLERANCE then 0
  else
    let amount_points : ℤ :=
      if amount_diff < 1 / 100 then 50
      else if amount_diff ≤ 1 then 30
      else 20
    let date_score : ℤ := max 0 (20 - (date_diff_days : ℤ) * 3)
    let score := amount_points + date_score + (if date_diff_days = 0 then 10 else 0)
    min score 100

/-- Bank transaction row as consumed by the matcher: the sheet columns
Date, Description, Category, Amount, Account as raw cell strings, the
original sheet row number, and the dedup metadata fields extracted by
load_transactions (whether the Category Hint cell is nonblank, and the
stripped Date Added cell). -/
structure Txn where
  row_number : ℤ
  Date : String
  Description : String
  Category : String
  Amount : String
  Account : String
  has_hint : Bool
  date_added : String
deriving DecidableEq

/-- Parsed order record as consumed by the matcher: the fields of a
Parsed Orders row that the matching and output code reads.  The
passthrough columns order_number, item_qty, parse_status and
processed_at are never read by the functions modelled here and are
omitted.  shipment_total and item_price arrive already converted by
safe_float, and parsed_date is the midnight-normalized email date (none
when the date cell did not parse). -/
structure Order where
  email_id : String
  email_type : String
  shipment_total : ℚ
  item_name : String
  item_price : ℚ
  parsed_date : Option PyDate
deriving DecidableEq

/-- Scored candidate pair as recorded in the all_matches list: score,
transaction row number, email id and the item records of the shipment. -/
structure Cand where
  score : ℤ
  row_number : ℤ
  email_id : String
  items : List Order
deriving DecidableEq

/-- Orders of one email type, keeping the insertion order of the
emails_by_type index built over parsed_orders (rows with a blank type or
a blank email id are never indexed). -/
def emailsByType (parsed_orders : List Order) (ty : String) : List Order :=
  parsed_orders.filter (fun o => o.email_type != "" && o.email_id != "" && o.email_type == ty)

/-- Orders grouped under one email id, keeping the insertion order of the
orders_by_email index built over parsed_orders (rows with a blank email
id are never indexed). -/
def ordersByEmail (parsed_orders : List Order) (e : String) : List Order :=
  parsed_orders.filter (fun o => o.email_id != "" && o.email_id == e)

/-- One step of the candidate scan of phase 1 of
match_all_transactions_optimally: state is (seen_emails, all_matches so
far); the order of the checks (seen set, parsed date, window, nonempty
group, falsy shipment_total, positive score) follows the source. -/
def candScanStep (parsed_orders : List Order) (td : PyDate) (a : ℚ) (row : ℤ)
    (st : List String × List Cand) (o : Order) : List String × List Cand :=
  if o.email_id ∈ st.1 then st
  else
    let seen := st.1 ++ [o.email_id]
    match o.parsed_date with
    | none => (seen, st.2)
    | some od =>
      let dd := dateDiffDays td od
      if dd > DATE_MATCHING_WINDOW_DAYS then (seen, st.2)
      else
        match ordersByEmail parsed_orders o.email_id with
        | [] => (seen, st.2)
        | o0 :: rest =>
          if o0.shipment_total = 0 then (seen, st.2)
          else
            let sc := calculate_confidence_score a o0.shipment_total dd
            if sc > 0 then (seen, st.2 ++ [⟨sc, row, o.email_id, o0 :: rest⟩])
            else (seen, st.2)

/-- Candidates contributed by one transaction in phase 1 of
match_all_transactions_optimally: nothing when the date does not parse
or the amount parses to zero, otherwise the scan over return emails (for
credits) or shipment then order emails (for charges). -/
def candsForTrans (parsed_orders : List Order) (t : Txn) : List Cand :=
  match parse_date t.Date with
  | none => []
  | some td =>
    let raw := parse_amount t.Amount
    let a := |raw|
    if a = 0 then []
    else
      let email_types := if raw > 0 then ["return"] else ["shipment", "order"]
      let scanList := (email_types.map (emailsByType parsed_orders)).flatten
      (scanList.foldl (candScanStep parsed_orders td a t.row_number) ([], [])).2

/-- Phase 1 of match_all_transactions_optimally: all scored candidate
pairs in discovery order (transactions in input order, and for each
transaction its eligible emails in enumeration order). -/
def allMatches (transactions : List Txn) (parsed_orders : List Order) : List Cand :=
  (transactions.map (candsForTrans parsed_orders)).flatten

/-- Comparator of the phase 2 sort: score descending.  A stable sort
under this relation is exactly the Python list.sort with reverse=True. -/
def candLE (a b : Cand) : Bool :=
  decide (b.score ≤ a.score)

/-- Phase 2 candidate order: all_matches stably sorted by score
descending. -/
def sortedMatches (transactions : List Txn) (parsed_orders : List Order) : List Cand :=
  (allMatches transactions parsed_orders).mergeSort candLE

/-- Value stored per row number in the result dictionary:
(matched items or none, confidence score, status string). -/
abbrev MatchValue := Option (List Order) × ℤ × String

/-- State of the greedy assignment walk: the two used sets, the result
dictionary as an association list in insertion order, and the list of
(row, email) claims it has made (the content of the two used sets, kept
as a list to record which email each row claimed). -/
structure AssignSt where
  used_emails : List String
  used_transactions : List ℤ
  results : List (ℤ × MatchValue)
  assignments : List (ℤ × String)
deriving DecidableEq

/-- One step of the greedy assignment: skip when the row or the email is
already claimed, assign with status matched at score 60 and above,
low_confidence at 40 to 59, and skip entirely below 40. -/
def assignStep (st : AssignSt) (c : Cand) : AssignSt :=
  if c.row_number ∈ st.used_transactions ∨ c.email_id ∈ st.used_emails then st
  else if c.score ≥ CONFIDENCE_THRESHOLD_HIGH then
    ⟨st.used_emails ++ [c.email_id], st.used_transactions ++ [c.row_number],
     st.results ++ [(c.row_number, (some c.items, c.score, "matched"))],
     st.assignments ++ [(c.row_number, c.email_id)]⟩
  else if c.score ≥ CONFIDENCE_THRESHOLD_LOW then
    ⟨st.used_emails ++ [c.email_id], st.used_transactions ++ [c.row_number],
     st.results ++ [(c.row_number, (some c.items, c.score, "low_confidence"))],
     st.assignments ++ [(c.row_number, c.email_id)]⟩
  else st

/-- Phase 2 of match_all_transactions_optimally: the greedy walk over the
sorted candidates starting from empty used sets and an empty dictionary. -/
def assignFinal (transactions : List Txn) (parsed_orders : List Order) : AssignSt :=
  (sortedMatches transactions parsed_orders).foldl assignStep ⟨[], [], [], []⟩

/-- Phase 3 of match_all_transactions_optimally: every transaction whose
row number is not yet a key of the dictionary receives
(items none, score 0, status unmatched). -/
def markUnmatched (transactions : List Txn) (results : List (ℤ × MatchValue)) :
    List (ℤ × MatchValue) :=
  transactions.foldl
    (fun acc t =>
      if (acc.lookup t.row_number).isSome then acc
      else acc ++ [(t.row_number, (none, 0, "unmatched"))])
    results

/-- match_all_transactions_optimally from transaction_matcher.py: the
result dictionary, modelled as an association list from row number to
(items, confidence, status) in insertion order. -/
def match_all_transactions_optimally (transactions : List Txn)
    (parsed_orders : List Order) : List (ℤ × MatchValue) :=
  markUnmatched transactions (assignFinal transactions parsed_orders).results

/-- The (row, email) claims made during phase 2, in claim order; the
projection of the greedy walk that records which shipment each assigned
transaction consumed. -/
def matchAssignments (transactions : List Txn) (parsed_orders : List Order) :
    List (ℤ × String) :=
  (assignFinal transactions parsed_orders).assignments

/-- Characters kept for the dedup description component. -/
def DEDUP_DESC_PREFIX_LEN : ℕ := 20

/-- Dedup grouping key of a transaction: stripped Date, stripped Amount,
stripped Account, and the first 20 characters of the Description,
stripped then upper-cased. -/
def dedup_key (t : Txn) : String × String × String × String :=
  (pyStrip t.Date, pyStrip t.Amount, pyStrip t.Account,
   ⟨(pyStripChars (t.Description.toList.take DEDUP_DESC_PREFIX_LEN)).map Char.toUpper⟩)

/-- Keys of the dedup groups in first-occurrence order, as the
defaultdict insertion order produces them. -/
def dedupKeys (ts : List Txn) : List (String × String × String × String) :=
  ts.foldl (fun ks t => if dedup_key t ∈ ks then ks else ks ++ [dedup_key t]) []

/-- Rows of one dedup group, in original order. -/
def dedupGroup (ts : List Txn) (k : String × String × String × String) : List Txn :=
  ts.filter (fun t => decide (dedup_key t = k))

/-- Selection order inside a dedup group: ascending by the pair
(has hint, date added), booleans with false before true and the date
added cell compared as a string, exactly the Python tuple sort key. -/
def hintKeyLE (a b : Txn) : Bool :=
  if a.has_hint = b.has_hint then decide (a.date_added < b.date_added) || a.date_added == b.date_added
  else (b.has_hint && !a.has_hint)

/-- Best row of a dedup group: a singleton group is kept as is, a larger
group is stably sorted ascending by the hint/date-added key and the last
element is taken. -/
def pickBest (rows : List Txn) : Option Txn :=
  match rows with
  | [] => none
  | [r] => some r
  | rs => (rs.mergeSort hintKeyLE).getLast?

/-- Output order relation of the dedup pass: original row number
ascending. -/
def rowLE (a b : Txn) : Bool :=
  decide (a.row_number ≤ b.row_number)

/-- dedup_plaid_transactions from transaction_matcher.py (the source name
carries a leading underscore): group by dedup_key, keep the best row of
every group, and return the kept rows sorted by original row number. -/
def dedup_plaid_transactions (ts : List Txn) : List Txn :=
  (((dedupKeys ts).filterMap (fun k => pickBest (dedupGroup ts k))).mergeSort rowLE)

/-- Known Amazon subscription and digital patterns, in source order:
(pattern, exact match flag, clean name). -/
def AMAZON_KNOWN_PATTERNS : List (String × Bool × String) :=
  [("Amazon Prime*", false, "Amazon Prime - Movie Rental"),
   ("Amazon Prime", true, "Amazon Prime - Subscription"),
   ("Amazon Kids", false, "Amazon Kids - Movie Rental"),
   ("Amazon Tips", false, "Amazon - Grocery Tips"),
   ("Amzn Digital", false, "Amazon Digital - Movie Rental"),
   ("AMZN Digital", false, "Amazon Digital - Movie Rental")]

/-- Containment of a character sequence inside another, the Python
substring membership test. -/
def isSubstring (needle : List Char) : List Char → Bool
  | [] => needle == []
  | c :: t => needle.isPrefixOf (c :: t) || isSubstring needle t

/-- Walk of the pattern table: an exact pattern requires equality of the
upper-cased strings, a substring pattern requires containment; the first
hit wins. -/
def findPattern (du : String) : List (String × Bool × String) → Option String
  | [] => none
  | (p, ex, clean) :: rest =>
    if ex then
      if du = pyUpper p then some clean else findPattern du rest
    else
      if isSubstring (pyUpper p).toList du.toList then some clean else findPattern du rest

/-- get_known_amazon_pattern from transaction_matcher.py: the clean name
of the first matching known pattern of the stripped description, none
when no pattern matches. -/
def get_known_amazon_pattern (description : String) : Option String :=
  findPattern (pyUpper (pyStrip description)) AMAZON_KNOWN_PATTERNS

/-- Output row produced by generate_output_rows.  match_confidence is an
optional integer: none models the empty cell written for rows outside
the Amazon match flow. -/
structure OutputRow where
  Date : String
  Description : String
  Category : String
  Amount : String
  Account : String
  amazon_order_id : String
  match_confidence : Option ℤ
  match_status : String
  source_row : ℤ
  processed_at : String
deriving DecidableEq

/-- Two-decimal formatting of a currency amount, modelling the Python
format spec .2f (ties of the third decimal are modelled with round half
away from zero; no value in this development hits an exact tie). -/
def formatQ2 (q : ℚ) : String :=
  let c : ℤ := round (q * 100)
  let sgn := if c < 0 then "-" else ""
  let a := c.natAbs
  sgn ++ toString (a / 100) ++ "." ++ (if a % 100 < 10 then "0" else "") ++ toString (a % 100)

/-- Output rows contributed by one transaction, following the three
branches of the loop body of generate_output_rows: the itemized branch
for matched or low_confidence results with items, the known-pattern or
unmatched branch for other results of Amazon rows, and the passthrough
branch for every other transaction.  The item-name summarizer of the
itemized branch is § 4.6 scaffolding outside the matching core and is
taken as a parameter. -/
def rowsForTxn (summarize : String → String) (amazonRows : List ℤ)
    (results : List (ℤ × MatchValue)) (processed_at : String) (t : Txn) :
    List OutputRow :=
  match (if t.row_number ∈ amazonRows then results.lookup t.row_number else none) with
  | some (items, confidence, status) =>
    if (match items with | some l => l != [] | none => false) &&
        (status == "matched" || status == "low_confidence") then
      let original_desc := t.Description
      let original_amount := parse_amount t.Amount
      let amount_sign : String := if original_amount < 0 then "-" else ""
      (items.getD []).filterMap (fun it =>
        if it.item_name = "" then none
        else some
          { Date := t.Date, Description := summarize it.item_name,
            Category := t.Category,
            Amount := amount_sign ++ "$" ++ formatQ2 it.item_price,
            Account := t.Account, amazon_order_id := original_desc,
            match_confidence := some confidence, match_status := status,
            source_row := t.row_number, processed_at := processed_at })
    else
      let clean := get_known_amazon_pattern t.Description
      [{ Date := t.Date,
         Description := (match clean with | some c => c | none => t.Description),
         Category := t.Category, Amount := t.Amount, Account := t.Account,
         amazon_order_id := "",
         match_confidence := some confidence,
         match_status := (match clean with | some _ => "known_pattern" | none => status),
         source_row := t.row_number, processed_at := processed_at }]
  | none =>
    [{ Date := t.Date, Description := t.Description, Category := t.Category,
       Amount := t.Amount, Account := t.Account, amazon_order_id := "",
       match_confidence := none, match_status := "",
       source_row := t.row_number, processed_at := processed_at }]

/-- generate_output_rows from transaction_matcher.py, with the item-name
summarizer abstracted and the generation timestamp passed in (the source
reads the clock). -/
def generate_output_rows (summarize : String → String)
    (all_transactions amazon_transactions : List Txn)
    (results : List (ℤ × MatchValue)) (processed_at : String) : List OutputRow :=
  let amazonRows := amazon_transactions.map Txn.row_number
  ((all_transactions.map (rowsForTxn summarize amazonRows results processed_at)).flatten)

/-- Running best match of the single-transaction entry point:
best_match, best_score, best_items. -/
structure BestSt where
  best_match : Option String
  best_score : ℤ
  best_items : List Order
deriving DecidableEq

/-- First occurrences of the elements of a list, in order; the key
iteration order of a Python dict grown by appending. -/
def firstKeys {α : Type} [DecidableEq α] (l : List α) : List α :=
  l.foldl (fun ks k => if k ∈ ks then ks else ks ++ [k]) []

/-- Grouping of dated candidate records by email id in discovery order,
as the per-type orders_by_email dict of match_transaction. -/
def groupPairs (l : List (Order × ℕ)) : List (String × List (Order × ℕ)) :=
  (firstKeys (l.map (fun p => p.1.email_id))).map
    (fun e => (e, l.filter (fun p => p.1.email_id == e)))

/-- Scoring of one shipment group in match_transaction: skip used emails
and falsy shipment totals, score against the smallest date difference of
the group, and keep the strictly best score seen so far. -/
def scanGroupStep (trans_amount : ℚ) (used_email_ids : List String)
    (b : BestSt) (g : String × List (Order × ℕ)) : BestSt :=
  if g.1 ∈ used_email_ids then b
  else
    match g.2 with
    | [] => b
    | (o0, d0) :: rest =>
      let shipment_total := o0.shipment_total
      let min_date_diff := rest.foldl (fun m p => min m p.2) d0
      if shipment_total = 0 then b
      else
        let score := calculate_confidence_score trans_amount shipment_total min_date_diff
        if score > b.best_score then ⟨some g.1, score, ((o0, d0) :: rest).map Prod.fst⟩
        else b

/-- Walk of the email-type priority list of match_transaction, with the
early break once a type produced a score at or above the high
threshold. -/
def typeLoop (parsed_orders : List Order) (td : PyDate) (trans_amount : ℚ)
    (used_email_ids : List String) : List String → BestSt → BestSt
  | [], b => b
  | ty :: rest, b =>
    let cands := parsed_orders.filterMap (fun o =>
      if o.email_type != ty then none
      else
        match o.parsed_date with
        | none => none
        | some od =>
          let dd := dateDiffDays td od
          if dd > DATE_MATCHING_WINDOW_DAYS then none else some (o, dd))
    let b1 := (groupPairs cands).foldl (scanGroupStep trans_amount used_email_ids) b
    if b1.best_score ≥ CONFIDENCE_THRESHOLD_HIGH then b1
    else typeLoop parsed_orders td trans_amount used_email_ids rest b1

/-- Return value of match_transaction:
(matched items or none, confidence score, status, matched email id). -/
structure MTResult where
  items : Option (List Order)
  score : ℤ
  status : String
  email : Option String
deriving DecidableEq

/-- match_transaction from transaction_matcher.py, the single-transaction
entry point: tries return emails for credits, shipment then order emails
for charges with the early high-confidence break, and classifies the
best shipment found; below the low threshold the email claim is dropped
but the items are still returned, as in the source. -/
def match_transaction (transaction : Txn) (parsed_orders : List Order)
    (used_email_ids : List String) : MTResult :=
  match parse_date transaction.Date with
  | none => ⟨none, 0, "unmatched", none⟩
  | some td =>
    let raw := parse_amount transaction.Amount
    let trans_amount := |raw|
    if trans_amount = 0 then ⟨none, 0, "unmatched", none⟩
    else
      let email_type_priority := if raw > 0 then ["return"] else ["shipment", "order"]
      let b := typeLoop parsed_orders td trans_amount used_email_ids
        email_type_priority ⟨none, 0, []⟩
      match b.best_match with
      | none => ⟨none, 0, "unmatched", none⟩
      | some e =>
        if b.best_score ≥ CONFIDENCE_THRESHOLD_HIGH then
          ⟨some b.best_items, b.best_score, "matched", some e⟩
        else if b.best_score ≥ CONFIDENCE_THRESHOLD_LOW then
          ⟨some b.best_items, b.best_score, "low_confidence", some e⟩
        else
          ⟨some b.best_items, b.best_score, "unmatched", none⟩

/-- Tie scenario input: first transaction of two that score equally
against the same shipment. -/
def c4tA : Txn := ⟨2, "2024-03-10", "Amazon.com*A", "", "-10.00", "Chase Sapphire", true, ""⟩

/-- Tie scenario input: second transaction with the same date and
amount. -/
def c4tB : Txn := ⟨3, "2024-03-10", "Amazon.com*B", "", "-10.00", "Chase Sapphire", true, ""⟩

/-- Tie scenario input: the single shipment both transactions match. -/
def c4oE : Order := ⟨"e1", "shipment", 10, "Thing", 10, some ⟨2024, 3, 10⟩⟩

/-- Candidate discovered first in the tie scenario. -/
def c4cA : Cand := ⟨80, 2, "e1", [c4oE]⟩

/-- Candidate discovered second in the tie scenario. -/
def c4cB : Cand := ⟨80, 3, "e1", [c4oE]⟩

/-- Shape of a result entry produced by the greedy walk: it repeats the
row of the paired assignment entry and carries the items, score and
threshold-classified status of some candidate of the scored list. -/
def entryFromCand (C : List Cand) (e : ℤ × MatchValue) (p : ℤ × String) : Prop :=
  e.1 = p.1 ∧ ∃ c ∈ C, c.row_number = p.1 ∧ c.email_id = p.2 ∧
    CONFIDENCE_THRESHOLD_LOW ≤ c.score ∧
    e.2 = (some c.items, c.score,
      if c.score ≥ CONFIDENCE_THRESHOLD_HIGH then "matched" else "low_confidence")

/-- Invariant of the greedy assignment walk over a candidate list C: the
used sets are the projections of the claim list, claimed rows and
claimed emails are each free of repeats, and result entries correspond
one to one with claims. -/
def AssignInv (C : List Cand) (st : AssignSt) : Prop :=
  st.used_transactions = st.assignments.map Prod.fst ∧
  st.used_emails = st.assignments.map Prod.snd ∧
  (st.assignments.map Prod.fst).Nodup ∧
  (st.assignments.map Prod.snd).Nodup ∧
  List.Forall₂ (entryFromCand C) st.results st.assignments

/-- C1: calculate_confidence_score returns 0 when the absolute amount
difference exceeds 3.00 regardless of the day difference; otherwise it
returns min(A + max(0, 20 - 3 d) + B, 100) with A = 50 below 0.01,
A = 30 up to 1.00, A = 20 up to 3.00, and B = 10 exactly on day 0. -/
theorem C1_confidence_score_formula (a t : ℚ) (d : ℕ) :
    calculate_confidence_score a t d =
      if |a - t| > 3 then 0
      else
        min ((if |a - t| < 1 / 100 then 50 else if |a - t| ≤ 1 then 30 else 20)
          + max 0 (20 - 3 * (d : ℤ)) + (if d = 0 then 10 else 0)) 100 := by
  simp only [calculate_confidence_score, AMOUNT_MATCHING_TOLERANCE]
  split_ifs <;> simp [Int.mul_comm]

/-- C10: the score is always an integer between 0 and 80, the cap at 100
never binds, and 80 is attained (exact amount on the same day). -/
theorem C10_score_range :
    (∀ (a t : ℚ) (d : ℕ),
        0 ≤ calculate_confidence_score a t d ∧ calculate_confidence_score a t d ≤ 80) ∧
      calculate_confidence_score 0 0 0 = 80 := by
  constructor
  · intro a t d
    simp only [calculate_confidence_score, AMOUNT_MATCHING_TOLERANCE]
    split_ifs <;> omega
  · decide

/-- C5: with the day difference fixed the score is non-increasing in the
absolute amount difference, and with the amounts fixed it is
non-increasing in the day difference (the same-day bonus included). -/
theorem C5_score_monotone :
    (∀ (a1 t1 a2 t2 : ℚ) (d : ℕ), |a1 - t1| ≤ |a2 - t2| →
        calculate_confidence_score a2 t2 d ≤ calculate_confidence_score a1 t1 d) ∧
      (∀ (a t : ℚ) (d1 d2 : ℕ), d1 ≤ d2 →
        calculate_confidence_score a t d2 ≤ calculate_confidence_score a t d1) := by
  constructor
  · intro a1 t1 a2 t2 d h
    simp only [calculate_confidence_score, AMOUNT_MATCHING_TOLERANCE]
    split_ifs <;> first | omega | linarith
  · intro a t d1 d2 h
    have h' : (d1 : ℤ) ≤ (d2 : ℤ) := Int.ofNat_le.mpr h
    simp only [calculate_confidence_score, AMOUNT_MATCHING_TOLERANCE]
    split_ifs <;> omega

/-- Witness for C5 at concrete inputs: amount difference 2 versus 0 on
day 2, and day 2 versus day 1 at an exact amount. -/
theorem C5_score_monotone_witness :
    (|(1 : ℚ) - 1| ≤ |(3 : ℚ) - 1| ∧
        calculate_confidence_score 3 1 2 ≤ calculate_confidence_score 1 1 2) ∧
      ((1 : ℕ) ≤ 2 ∧ calculate_confidence_score 5 5 2 ≤ calculate_confidence_score 5 5 1) :=
  ⟨⟨by decide, C5_score_monotone.1 1 1 3 1 2 (by decide)⟩,
   ⟨by decide, C5_score_monotone.2 5 5 1 2 (by decide)⟩⟩

/-- One greedy step either leaves the state unchanged or claims a fresh
row and a fresh email for a candidate at or above the low threshold. -/
theorem assignStep_eq_or (st : AssignSt) (c : Cand) :
    assignStep st c = st ∨
      (c.row_number ∉ st.used_transactions ∧ c.email_id ∉ st.used_emails ∧
        CONFIDENCE_THRESHOLD_LOW ≤ c.score ∧
        assignStep st c =
          ⟨st.used_emails ++ [c.email_id], st.used_transactions ++ [c.row_number],
            st.results ++ [(c.row_number,
              (some c.items, c.score,
                if c.score ≥ CONFIDENCE_THRESHOLD_HIGH then "matched" else "low_confidence"))],
            st.assignments ++ [(c.row_number, c.email_id)]⟩) := by
  by_cases h1 : c.row_number ∈ st.used_transactions ∨ c.email_id ∈ st.used_emails
  · exact Or.inl (by simp [assignStep, h1])
  · by_cases h2 : c.score ≥ CONFIDENCE_THRESHOLD_HIGH
    · push_neg at h1
      refine Or.inr ⟨h1.1, h1.2, ?_, ?_⟩
      · exact le_trans
          (by norm_num [CONFIDENCE_THRESHOLD_LOW, CONFIDENCE_THRESHOLD_HIGH]) h2
      · simp [assignStep, h1, h2, not_or.mpr h1]
    · by_cases h3 : c.score ≥ CONFIDENCE_THRESHOLD_LOW
      · push_neg at h1
        exact Or.inr ⟨h1.1, h1.2, h3, by simp [assignStep, h1, h2, h3, not_or.mpr h1]⟩
      · exact Or.inl (by simp [assignStep, h1, h2, h3])

/-- The greedy step preserves the assignment invariant. -/
theorem assignInv_step {C : List Cand} {c : Cand} (hc : c ∈ C) {st : AssignSt}
    (h : AssignInv C st) : AssignInv C (assignStep st c) := by
  rcases assignStep_eq_or st c with heq | ⟨hrt, hre, hsc, heq⟩
  · rw [heq]; exact h
  · obtain ⟨h1, h2, h3, h4, h5⟩ := h
    rw [heq]
    have hr' : c.row_number ∉ st.assignments.map Prod.fst := by rw [← h1]; exact hrt
    have he' : c.email_id ∉ st.assignments.map Prod.snd := by rw [← h2]; exact hre
    refine ⟨by simp [h1], by simp [h2], ?_, ?_, ?_⟩
    · simp only [List.map_append, List.map_cons, List.map_nil]
      exact (List.nodup_append.mpr ⟨h3, List.nodup_singleton _, by
        intro x hx hx'
        simp only [List.mem_singleton] at hx'
        exact hr' (hx' ▸ hx)⟩)
    · simp only [List.map_append, List.map_cons, List.map_nil]
      exact (List.nodup_append.mpr ⟨h4, List.nodup_singleton _, by
        intro x hx hx'
        simp only [List.mem_singleton] at hx'
        exact he' (hx' ▸ hx)⟩)
    · refine List.rel_append h5 (List.Forall₂.cons ⟨rfl, c, hc, rfl, rfl, hsc, rfl⟩ List.Forall₂.nil)

/-- The greedy walk preserves the assignment invariant along any list of
candidates drawn from C. -/
theorem assignInv_foldl {C : List Cand} :
    ∀ (l : List Cand), (∀ c ∈ l, c ∈ C) →
      ∀ st, AssignInv C st → AssignInv C (l.foldl assignStep st)
  | [], _, _, h => h
  | c :: t, hl, st, h => by
    simp only [List.foldl_cons]
    exact assignInv_foldl t (fun x hx => hl x (List.mem_cons_of_mem _ hx)) _
      (assignInv_step (hl c (List.mem_cons_self _ _)) h)

/-- The final state of phase 2 satisfies the assignment invariant with
respect to the scored candidate list. -/
theorem assignFinal_inv (ts : List Txn) (os : List Order) :
    AssignInv (allMatches ts os) (assignFinal ts os) := by
  unfold assignFinal sortedMatches
  exact assignInv_foldl _ (fun c hc => (List.mem_mergeSort).mp hc) _
    ⟨rfl, rfl, List.nodup_nil, List.nodup_nil, List.Forall₂.nil⟩

/-- Result keys coincide with assignment rows under the entry
correspondence. -/
theorem forall2_keys_eq {C : List Cand} :
    ∀ {rs : List (ℤ × MatchValue)} {ps : List (ℤ × String)},
      List.Forall₂ (entryFromCand C) rs ps → rs.map Prod.fst = ps.map Prod.fst := by
  intro rs ps h
  induction h with
  | nil => rfl
  | cons h1 _ ih => simp only [List.map_cons, ih, h1.1]

/-- A member on the right of a Forall₂ has a related member on the left. -/
theorem forall2_mem_right {α β : Type} {R : α → β → Prop} :
    ∀ {l1 : List α} {l2 : List β}, List.Forall₂ R l1 l2 →
      ∀ {p : β}, p ∈ l2 → ∃ e ∈ l1, R e p := by
  intro l1 l2 h
  induction h with
  | nil => intro p hp; cases hp
  | cons h1 _ ih =>
    intro p hp
    rcases List.mem_cons.mp hp with rfl | hp'
    · exact ⟨_, List.mem_cons_self _ _, h1⟩
    · obtain ⟨e, he, hr⟩ := ih hp'
      exact ⟨e, List.mem_cons_of_mem _ he, hr⟩

/-- A member on the left of a Forall₂ has a related member on the right. -/
theorem forall2_mem_left {α β : Type} {R : α → β → Prop} :
    ∀ {l1 : List α} {l2 : List β}, List.Forall₂ R l1 l2 →
      ∀ {e : α}, e ∈ l1 → ∃ p ∈ l2, R e p := by
  intro l1 l2 h
  induction h with
  | nil => intro e he; cases he
  | cons h1 _ ih =>
    intro e he
    rcases List.mem_cons.mp he with rfl | he'
    · exact ⟨_, List.mem_cons_self _ _, h1⟩
    · obtain ⟨p, hp, hr⟩ := ih he'
      exact ⟨p, List.mem_cons_of_mem _ hp, hr⟩

/-- In an association list with distinct keys, lookup of a present pair
returns its value. -/
theorem lookup_of_mem_nodup {κ β : Type} [BEq κ] [LawfulBEq κ]
    {m : List (κ × β)} {k : κ} {v : β}
    (hn : (m.map Prod.fst).Nodup) (hm : (k, v) ∈ m) : m.lookup k = some v := by
  induction m with
  | nil => cases hm
  | cons p t ih =>
    obtain ⟨k', v'⟩ := p
    simp only [List.map_cons, List.nodup_cons] at hn
    rcases List.mem_cons.mp hm with h | h
    · obtain ⟨rfl, rfl⟩ := Prod.mk.injEq .. |>.mp h
      simp [List.lookup]
    · have hk : k ≠ k' := by
        rintro rfl
        exact hn.1 (List.mem_map_of_mem Prod.fst h)
      rw [List.lookup_cons]
      have hb : (k == k') = false := by simp [hk]
      rw [hb]
      exact ih hn.2 h

/-- Lookup over an appended association list when the key is found on the
left. -/
theorem lookup_append_some {κ β : Type} [BEq κ] [LawfulBEq κ] {m l' : List (κ × β)} {k : κ} {v : β}
    (h : m.lookup k = some v) : (m ++ l').lookup k = some v := by
  rw [List.lookup_append, h]
  rfl

/-- Lookup over an appended association list when the key is absent on
the left. -/
theorem lookup_append_none {κ β : Type} [BEq κ] [LawfulBEq κ] {m l' : List (κ × β)} {k : κ}
    (h : m.lookup k = none) : (m ++ l').lookup k = l'.lookup k := by
  rw [List.lookup_append, h]
  rfl

/-- Lookup of a key that appears in no pair of the list. -/
theorem lookup_none_of_not_mem {κ β : Type} [BEq κ] [LawfulBEq κ]
    {m : List (κ × β)} {k : κ} (h : k ∉ m.map Prod.fst) : m.lookup k = none := by
  rw [List.lookup_eq_none_iff]
  intro p hp
  simp only [bne_iff_ne, ne_eq]
  intro heq
  exact h (List.mem_map.mpr ⟨p, hp, heq.symm⟩)

/-- Phase 3 only appends entries, and every appended entry is the
unmatched triple. -/
theorem markUnmatched_spec (ts : List Txn) (m : List (ℤ × MatchValue)) :
    ∃ l', markUnmatched ts m = m ++ l' ∧
      ∀ e ∈ l', e.2 = ((none : Option (List Order)), (0 : ℤ), "unmatched") := by
  induction ts generalizing m with
  | nil => exact ⟨[], by simp [markUnmatched], by simp⟩
  | cons t rest ih =>
    simp only [markUnmatched, List.foldl_cons]
    by_cases hc : (m.lookup t.row_number).isSome
    · rw [if_pos hc]
      exact ih m
    · rw [if_neg hc]
      obtain ⟨l'', h1, h2⟩ := ih (m ++ [(t.row_number, (none, 0, "unmatched"))])
      refine ⟨(t.row_number, (none, 0, "unmatched")) :: l'', ?_, ?_⟩
      · rw [show markUnmatched rest (m ++ [(t.row_number, (none, 0, "unmatched"))]) =
            rest.foldl _ _ from rfl] at h1
        rw [h1, List.append_assoc]
        rfl
      · intro e he
        rcases List.mem_cons.mp he with rfl | he'
        · rfl
        · exact h2 e he'

/-- Phase 3 preserves distinctness of the dictionary keys. -/
theorem markUnmatched_nodupkeys (ts : List Txn) (m : List (ℤ × MatchValue))
    (h : (m.map Prod.fst).Nodup) : ((markUnmatched ts m).map Prod.fst).Nodup := by
  induction ts generalizing m with
  | nil => simpa [markUnmatched]
  | cons t rest ih =>
    simp only [markUnmatched, List.foldl_cons]
    by_cases hc : (m.lookup t.row_number).isSome
    · rw [if_pos hc]
      exact ih m h
    · rw [if_neg hc]
      apply ih
      have hnm : t.row_number ∉ m.map Prod.fst := by
        intro hmem
        obtain ⟨p, hp, hfst⟩ := List.mem_map.mp hmem
        have := List.lookup_eq_none_iff.mp (Option.not_isSome_iff_eq_none.mp hc) p hp
        simp only [bne_iff_ne, ne_eq] at this
        exact this hfst.symm
      simp only [List.map_append, List.map_cons, List.map_nil]
      exact List.nodup_append.mpr ⟨h, List.nodup_singleton _, by
        intro x hx hx'
        simp only [List.mem_singleton] at hx'
        exact hnm (hx' ▸ hx)⟩

/-- After phase 3, every processed transaction has its row number among
the dictionary keys. -/
theorem markUnmatched_mem_key (ts : List Txn) (m : List (ℤ × MatchValue))
    (t : Txn) (ht : t ∈ ts) :
    t.row_number ∈ (markUnmatched ts m).map Prod.fst := by
  induction ts generalizing m with
  | nil => cases ht
  | cons u rest ih =>
    simp only [markUnmatched, List.foldl_cons]
    rcases List.mem_cons.mp ht with rfl | ht'
    · have hk : t.row_number ∈
          (if (m.lookup t.row_number).isSome then m
           else m ++ [(t.row_number, (none, 0, "unmatched"))]).map Prod.fst := by
        by_cases hc : (m.lookup t.row_number).isSome
        · rw [if_pos hc]
          obtain ⟨p, hp, hb⟩ := List.lookup_isSome_iff.mp hc
          have hpf : p.1 = t.row_number := (beq_iff_eq.mp hb).symm
          exact List.mem_map.mpr ⟨p, hp, hpf⟩
        · rw [if_neg hc]
          simp
      obtain ⟨l', hl, _⟩ := markUnmatched_spec rest _
      rw [show rest.foldl _ _ = markUnmatched rest _ from rfl, hl]
      simp only [List.map_append, List.mem_append]
      exact Or.inl hk
    · exact ih _ ht'

/-- After phase 3, a transaction whose row is not a key of the phase 2
dictionary looks up to the unmatched triple. -/
theorem markUnmatched_lookup_unmatched (ts : List Txn) (m : List (ℤ × MatchValue))
    (t : Txn) (ht : t ∈ ts) (hk : t.row_number ∉ m.map Prod.fst) :
    (markUnmatched ts m).lookup t.row_number = some (none, 0, "unmatched") := by
  induction ts generalizing m with
  | nil => cases ht
  | cons u rest ih =>
    have hnone : m.lookup t.row_number = none := lookup_none_of_not_mem hk
    simp only [markUnmatched, List.foldl_cons]
    by_cases hru : u.row_number = t.row_number
    · have hc : ¬ (m.lookup u.row_number).isSome := by
        rw [hru, hnone]; simp
      rw [if_neg hc]
      have h1 : (m ++ [(u.row_number, ((none : Option (List Order)), (0 : ℤ), "unmatched"))]).lookup
          t.row_number = some (none, 0, "unmatched") := by
        rw [lookup_append_none hnone, hru]
        simp
      obtain ⟨l', hl, _⟩ := markUnmatched_spec rest
        (m ++ [(u.row_number, (none, 0, "unmatched"))])
      rw [show rest.foldl _ _ = markUnmatched rest _ from rfl, hl]
      exact lookup_append_some h1
    · rcases List.mem_cons.mp ht with rfl | ht'
      · exact absurd rfl hru
      · by_cases hc : (m.lookup u.row_number).isSome
        · rw [if_pos hc]
          exact ih m ht' hk
        · rw [if_neg hc]
          apply ih _ ht'
          simp only [List.map_append, List.map_cons, List.map_nil, List.mem_append,
            List.mem_singleton]
          rintro (h | h)
          · exact hk h
          · exact hru h.symm

/-- C2: after the batch matcher runs, the result dictionary has one
entry per distinct row number and contains every input transaction row;
the claimed rows and claimed emails are each free of repeats, and every
claim records the items of its own email group under its own row, so no
email has its items handed to two different rows. -/
theorem C2_result_uniqueness (ts : List Txn) (os : List Order) :
    ((match_all_transactions_optimally ts os).map Prod.fst).Nodup ∧
      (∀ t ∈ ts, t.row_number ∈ (match_all_transactions_optimally ts os).map Prod.fst) ∧
      ((matchAssignments ts os).map Prod.fst).Nodup ∧
      ((matchAssignments ts os).map Prod.snd).Nodup ∧
      (∀ p ∈ matchAssignments ts os, ∃ c ∈ allMatches ts os,
          c.row_number = p.1 ∧ c.email_id = p.2 ∧
          (match_all_transactions_optimally ts os).lookup p.1 =
            some (some c.items, c.score,
              if c.score ≥ CONFIDENCE_THRESHOLD_HIGH then "matched" else "low_confidence")) := by
  obtain ⟨h1, h2, h3, h4, h5⟩ := assignFinal_inv ts os
  have hkeys := forall2_keys_eq h5
  have hrnodup : ((assignFinal ts os).results.map Prod.fst).Nodup := by
    rw [hkeys]; exact h3
  refine ⟨?_, ?_, h3, h4, ?_⟩
  · exact markUnmatched_nodupkeys ts _ hrnodup
  · intro t ht
    exact markUnmatched_mem_key ts _ t ht
  · intro p hp
    obtain ⟨e, he, hef⟩ := forall2_mem_right h5 hp
    obtain ⟨hfst, c, hcC, hrow, hemail, hsc, hval⟩ := hef
    refine ⟨c, hcC, hrow, hemail, ?_⟩
    have hm : (p.1, (some c.items, c.score,
        if c.score ≥ CONFIDENCE_THRESHOLD_HIGH then "matched" else "low_confidence")) ∈
        (assignFinal ts os).results := by
      obtain ⟨e1, e2⟩ := e
      simp only at hfst hval
      rw [hfst] at he
      rw [hval] at he
      exact he
    have hlookup := lookup_of_mem_nodup hrnodup hm
    obtain ⟨l', hl, _⟩ := markUnmatched_spec ts (assignFinal ts os).results
    show (markUnmatched ts (assignFinal ts os).results).lookup p.1 = _
    rw [hl]
    exact lookup_append_some hlookup

/-- Witness for C2 on a one-transaction, one-shipment instance. -/
theorem C2_result_uniqueness_witness :
    ((⟨2, "2024-03-10", "Amazon.com*AB12", "", "-$41.03", "Chase Sapphire", true, ""⟩ : Txn) ∈
        [(⟨2, "2024-03-10", "Amazon.com*AB12", "", "-$41.03", "Chase Sapphire", true, ""⟩ : Txn)]) ∧
      (2 : ℤ) ∈ (match_all_transactions_optimally
          [(⟨2, "2024-03-10", "Amazon.com*AB12", "", "-$41.03", "Chase Sapphire", true, ""⟩ : Txn)]
          [(⟨"e1", "shipment", 4103 / 100, "Widget", 4103 / 100, some ⟨2024, 3, 8⟩⟩ : Order)]).map
          Prod.fst :=
  ⟨List.mem_singleton.mpr rfl,
    (C2_result_uniqueness _ _).2.1 _ (List.mem_singleton.mpr rfl)⟩

/-- C3: dictionary entries with items carry a score of at least 40 and
are classified matched exactly at scores of 60 and above and
low_confidence exactly at scores 40 to 59; a transaction whose
candidates all score 39 or below claims nothing and ends unmatched. -/
theorem C3_threshold_classification (ts : List Txn) (os : List Order) :
    (∀ e ∈ match_all_transactions_optimally ts os,
        (e.2.1.isSome →
          CONFIDENCE_THRESHOLD_LOW ≤ e.2.2.1 ∧
          (e.2.2.2 = "matched" ↔ CONFIDENCE_THRESHOLD_HIGH ≤ e.2.2.1) ∧
          (e.2.2.2 = "low_confidence" ↔
            CONFIDENCE_THRESHOLD_LOW ≤ e.2.2.1 ∧ e.2.2.1 ≤ 59)) ∧
        (e.2.1 = none → e.2.2.1 = 0 ∧ e.2.2.2 = "unmatched")) ∧
      (∀ t ∈ ts,
        (∀ c ∈ allMatches ts os, c.row_number = t.row_number → c.score ≤ 39) →
        (match_all_transactions_optimally ts os).lookup t.row_number =
            some (none, 0, "unmatched") ∧
          t.row_number ∉ (matchAssignments ts os).map Prod.fst) := by
  obtain ⟨h1, h2, h3, h4, h5⟩ := assignFinal_inv ts os
  obtain ⟨l', hl, hl2⟩ := markUnmatched_spec ts (assignFinal ts os).results
  constructor
  · intro e he
    have he' : e ∈ (assignFinal ts os).results ++ l' := by
      rw [← hl]; exact he
    rcases List.mem_append.mp he' with hr | hr
    · obtain ⟨p, hp, hef⟩ := forall2_mem_left h5 hr
      obtain ⟨hfst, c, hcC, hrow, hemail, hsc, hval⟩ := hef
      constructor
      · intro _
        rw [hval]
        by_cases h60 : c.score ≥ CONFIDENCE_THRESHOLD_HIGH
        · rw [if_pos h60]
          refine ⟨hsc, by simp [h60], ?_⟩
          simp only [show ("matched" = "low_confidence") = False by simp, false_iff]
          rintro ⟨-, hle⟩
          norm_num [CONFIDENCE_THRESHOLD_HIGH] at h60
          omega
        · rw [if_neg h60]
          refine ⟨hsc, ?_, ?_⟩
          · simp only [show ("low_confidence" = "matched") = False by simp, false_iff]
            exact h60
          · simp only [true_iff, eq_self_iff_true]
            refine ⟨hsc, ?_⟩
            norm_num [CONFIDENCE_THRESHOLD_HIGH] at h60
            omega
      · intro hnone
        rw [hval] at hnone
        simp at hnone
    · have := hl2 e hr
      constructor
      · intro hsome
        rw [this] at hsome
        simp at hsome
      · intro _
        rw [this]
        exact ⟨rfl, rfl⟩
  · intro t ht hsc39
    have hnotin : t.row_number ∉ (assignFinal ts os).results.map Prod.fst := by
      intro hmem
      obtain ⟨e, he, hefst⟩ := List.mem_map.mp hmem
      obtain ⟨p, hp, hef⟩ := forall2_mem_left h5 he
      obtain ⟨hfst, c, hcC, hrow, hemail, hsc, hval⟩ := hef
      have h39 : c.score ≤ 39 := hsc39 c hcC (by rw [hrow, ← hfst, hefst])
      norm_num [CONFIDENCE_THRESHOLD_LOW] at hsc
      omega
    constructor
    · exact markUnmatched_lookup_unmatched ts _ t ht hnotin
    · show t.row_number ∉ (assignFinal ts os).assignments.map Prod.fst
      rw [← forall2_keys_eq h5]
      exact hnotin

/-- Witness for C3: a transaction with no candidates at all (empty
receipt list) is unmatched and claims nothing. -/
theorem C3_threshold_classification_witness :
    ((⟨2, "2024-03-10", "Amazon.com*AB12", "", "-$41.03", "Chase Sapphire", true, ""⟩ : Txn) ∈
        [(⟨2, "2024-03-10", "Amazon.com*AB12", "", "-$41.03", "Chase Sapphire", true, ""⟩ : Txn)]) ∧
      (∀ c ∈ allMatches
          [(⟨2, "2024-03-10", "Amazon.com*AB12", "", "-$41.03", "Chase Sapphire", true, ""⟩ : Txn)]
          ([] : List Order), c.row_number = (2 : ℤ) → c.score ≤ 39) ∧
      (match_all_transactions_optimally
          [(⟨2, "2024-03-10", "Amazon.com*AB12", "", "-$41.03", "Chase Sapphire", true, ""⟩ : Txn)]
          ([] : List Order)).lookup 2 = some (none, 0, "unmatched") := by
  refine ⟨List.mem_singleton.mpr rfl, by decide, ?_⟩
  exact ((C3_threshold_classification
      [(⟨2, "2024-03-10", "Amazon.com*AB12", "", "-$41.03", "Chase Sapphire", true, ""⟩ : Txn)]
      ([] : List Order)).2
    (⟨2, "2024-03-10", "Amazon.com*AB12", "", "-$41.03", "Chase Sapphire", true, ""⟩ : Txn)
    (List.mem_singleton.mpr rfl) (by decide)).1

/-- The candidate comparator is transitive. -/
theorem candLE_trans : ∀ (a b c : Cand), candLE a b → candLE b c → candLE a c := by
  intro a b c h1 h2
  simp only [candLE, decide_eq_true_eq] at *
  exact le_trans h2 h1

/-- The candidate comparator is total. -/
theorem candLE_total : ∀ (a b : Cand), candLE a b || candLE b a := by
  intro a b
  simp only [candLE, Bool.or_eq_true, decide_eq_true_eq]
  exact le_total b.score a.score

/-- C4: the batch matcher is a function of its inputs (two runs agree),
the phase 2 walk processes candidates in descending score order, equal
scores keep their discovery order (the filter of the sorted list at any
fixed score equals the filter of the discovery list), and in the
concrete tie scenario the earlier-discovered of two equal-score
candidates claims the shipment while the later transaction falls
through to unmatched. -/
theorem C4_deterministic_stable_order (ts : List Txn) (os : List Order) :
    match_all_transactions_optimally ts os = match_all_transactions_optimally ts os ∧
      (sortedMatches ts os).Pairwise (fun a b => b.score ≤ a.score) ∧
      (∀ s : ℤ, (sortedMatches ts os).filter (fun c => c.score == s) =
          (allMatches ts os).filter (fun c => c.score == s)) ∧
      matchAssignments [c4tA, c4tB] [c4oE] = [(2, "e1")] ∧
      (match_all_transactions_optimally [c4tA, c4tB] [c4oE]).lookup 3 =
        some (none, 0, "unmatched") := by
  have hA : allMatches [c4tA, c4tB] [c4oE] = [c4cA, c4cB] := by decide
  have hpair2 : List.Pairwise (fun a b : Cand => candLE a b) [c4cA, c4cB] := by
    refine List.Pairwise.cons ?_
      (List.Pairwise.cons (fun a' h => absurd h (List.not_mem_nil _)) List.Pairwise.nil)
    intro a' h
    rw [List.mem_singleton.mp h]
    decide
  have hsort : sortedMatches [c4tA, c4tB] [c4oE] = [c4cA, c4cB] := by
    unfold sortedMatches
    rw [hA]
    exact List.mergeSort_of_sorted hpair2
  refine ⟨rfl, ?_, ?_, ?_, ?_⟩
  · have hp := List.sorted_mergeSort candLE_trans candLE_total (allMatches ts os)
    exact hp.imp (fun h => by
      simpa only [candLE, decide_eq_true_eq] using h)
  · intro s
    have hpairf : ((allMatches ts os).filter (fun c => c.score == s)).Pairwise
        (fun a b : Cand => candLE a b) := by
      apply List.pairwise_of_forall_mem_list
      intro a ha b hb
      have ha' := (List.mem_filter.mp ha).2
      have hb' := (List.mem_filter.mp hb).2
      simp only [beq_iff_eq] at ha' hb'
      simp [candLE, ha', hb']
    have hsub : List.Sublist ((allMatches ts os).filter (fun c => c.score == s))
        ((allMatches ts os).mergeSort candLE) :=
      List.sublist_mergeSort candLE_trans candLE_total hpairf
        (List.filter_sublist _)
    have hsub2 : List.Sublist ((allMatches ts os).filter (fun c => c.score == s))
        (((allMatches ts os).mergeSort candLE).filter (fun c => c.score == s)) := by
      have h2 := hsub.filter (fun c => c.score == s)
      rw [List.filter_filter] at h2
      simpa only [Bool.and_self] using h2
    have hperm : List.Perm
        (((allMatches ts os).mergeSort candLE).filter (fun c => c.score == s))
        ((allMatches ts os).filter (fun c => c.score == s)) :=
      (List.mergeSort_perm (allMatches ts os) candLE).filter _
    exact (hsub2.eq_of_length hperm.length_eq.symm).symm
  · show (assignFinal [c4tA, c4tB] [c4oE]).assignments = [(2, "e1")]
    unfold assignFinal
    rw [hsort]
    decide
  · show (markUnmatched [c4tA, c4tB] (assignFinal [c4tA, c4tB] [c4oE]).results).lookup 3 =
      some (none, 0, "unmatched")
    unfold assignFinal
    rw [hsort]
    decide

/-- A candidate recorded by one scan step carries the row of the
scanning transaction, a positive score, and the nonempty item group of
its email whose leading record has a nonzero shipment total. -/
theorem candScanStep_mem {os : List Order} {td : PyDate} {a : ℚ} {row : ℤ}
    {st : List String × List Cand} {o : Order} {c : Cand}
    (h : c ∈ (candScanStep os td a row st o).2) :
    c ∈ st.2 ∨
      (c.row_number = row ∧ 0 < c.score ∧
        ∃ o0 rest, ordersByEmail os c.email_id = o0 :: rest ∧
          o0.shipment_total ≠ 0 ∧ c.items = o0 :: rest) := by
  simp only [candScanStep] at h
  split at h
  · exact Or.inl h
  · split at h
    · exact Or.inl h
    · split at h
      · exact Or.inl h
      · split at h
        · exact Or.inl h
        · rename_i hne od hpd hdd o0 rest hoe
          split at h
          · exact Or.inl h
          · rename_i hnz
            split at h
            · rename_i hpos
              rcases List.mem_append.mp h with hm | hm
              · exact Or.inl hm
              · rw [List.mem_singleton] at hm
                subst hm
                exact Or.inr ⟨rfl, hpos, o0, rest, hoe, hnz, rfl⟩
            · exact Or.inl h

/-- Fold version of the scan-step characterization. -/
theorem candScan_foldl_mem {os : List Order} {td : PyDate} {a : ℚ} {row : ℤ} :
    ∀ (l : List Order) (st : List String × List Cand) (c : Cand),
      c ∈ (l.foldl (candScanStep os td a row) st).2 →
      c ∈ st.2 ∨
        (c.row_number = row ∧ 0 < c.score ∧
          ∃ o0 rest, ordersByEmail os c.email_id = o0 :: rest ∧
            o0.shipment_total ≠ 0 ∧ c.items = o0 :: rest)
  | [], _, _, h => Or.inl h
  | o :: t, st, c, h => by
    rcases candScan_foldl_mem t _ c h with h' | hP
    · exact candScanStep_mem h'
    · exact Or.inr hP

/-- Every candidate of one transaction carries that transaction's row,
a positive score, and a nonempty item group with nonzero leading
shipment total. -/
theorem candsForTrans_mem {os : List Order} {t : Txn} {c : Cand}
    (h : c ∈ candsForTrans os t) :
    c.row_number = t.row_number ∧ 0 < c.score ∧
      ∃ o0 rest, ordersByEmail os c.email_id = o0 :: rest ∧
        o0.shipment_total ≠ 0 ∧ c.items = o0 :: rest := by
  unfold candsForTrans at h
  split at h
  · cases h
  · dsimp only at h
    split at h
    · cases h
    · rcases candScan_foldl_mem _ _ _ h with h' | hP
      · cases h'
      · exact hP

/-- Every candidate of the batch scan comes from some input
transaction. -/
theorem mem_allMatches {ts : List Txn} {os : List Order} {c : Cand}
    (h : c ∈ allMatches ts os) : ∃ t ∈ ts, c ∈ candsForTrans os t := by
  unfold allMatches at h
  obtain ⟨l, hl, hcl⟩ := List.mem_flatten.mp h
  obtain ⟨t, ht, rfl⟩ := List.mem_map.mp hl
  exact ⟨t, ht, hcl⟩

/-- C6: a transaction whose date string does not parse or whose amount
parses to zero contributes no candidates and always ends with the
unmatched result; the parse failures are absorbed by the total parsing
functions (none for dates, 0.0 for amounts) rather than raised. -/
theorem C6_bad_transaction_unmatched (ts : List Txn) (os : List Order) (t : Txn)
    (hrows : (ts.map Txn.row_number).Nodup) (ht : t ∈ ts)
    (hbad : parse_date t.Date = none ∨ parse_amount t.Amount = 0) :
    candsForTrans os t = [] ∧
      (∀ c ∈ allMatches ts os, c.row_number ≠ t.row_number) ∧
      (match_all_transactions_optimally ts os).lookup t.row_number =
        some (none, 0, "unmatched") := by
  have hempty : candsForTrans os t = [] := by
    unfold candsForTrans
    rcases hbad with h | h
    · rw [h]
    · cases hpd : parse_date t.Date with
      | none => rfl
      | some td =>
        dsimp only
        rw [h, abs_zero, if_pos rfl]
  have hner : ∀ c ∈ allMatches ts os, c.row_number ≠ t.row_number := by
    intro c hc heq
    obtain ⟨t', ht', hct'⟩ := mem_allMatches hc
    have hrowc := (candsForTrans_mem hct').1
    have ht'' : t' = t :=
      List.inj_on_of_nodup_map hrows ht' ht (by rw [← hrowc, heq])
    rw [ht'', hempty] at hct'
    cases hct'
  refine ⟨hempty, hner, ?_⟩
  obtain ⟨h1, h2, h3, h4, h5⟩ := assignFinal_inv ts os
  have hnotin : t.row_number ∉ (assignFinal ts os).results.map Prod.fst := by
    intro hmem
    obtain ⟨e, he, hefst⟩ := List.mem_map.mp hmem
    obtain ⟨p, hp, hef⟩ := forall2_mem_left h5 he
    obtain ⟨hfst, c, hcC, hrow, hemail, hsc, hval⟩ := hef
    exact hner c hcC (by rw [hrow, ← hfst, hefst])
  exact markUnmatched_lookup_unmatched ts _ t ht hnotin

/-- Witness for C6: a transaction with the unparseable date 2024-13-45
is unmatched even though a plausible shipment is present. -/
theorem C6_bad_transaction_unmatched_witness :
    (([(⟨2, "2024-13-45", "Amazon.com*AB12", "", "-$41.03", "Chase Sapphire", true, ""⟩ : Txn)]).map
        Txn.row_number).Nodup ∧
      ((⟨2, "2024-13-45", "Amazon.com*AB12", "", "-$41.03", "Chase Sapphire", true, ""⟩ : Txn) ∈
        [(⟨2, "2024-13-45", "Amazon.com*AB12", "", "-$41.03", "Chase Sapphire", true, ""⟩ : Txn)]) ∧
      parse_date "2024-13-45" = none ∧
      (match_all_transactions_optimally
          [(⟨2, "2024-13-45", "Amazon.com*AB12", "", "-$41.03", "Chase Sapphire", true, ""⟩ : Txn)]
          [(⟨"e1", "shipment", 4103 / 100, "Widget", 4103 / 100, some ⟨2024, 3, 8⟩⟩ : Order)]).lookup 2 =
        some (none, 0, "unmatched") := by
  refine ⟨by decide, List.mem_singleton.mpr rfl, by decide, ?_⟩
  exact (C6_bad_transaction_unmatched
      [(⟨2, "2024-13-45", "Amazon.com*AB12", "", "-$41.03", "Chase Sapphire", true, ""⟩ : Txn)]
      [(⟨"e1", "shipment", 4103 / 100, "Widget", 4103 / 100, some ⟨2024, 3, 8⟩⟩ : Order)]
      (⟨2, "2024-13-45", "Amazon.com*AB12", "", "-$41.03", "Chase Sapphire", true, ""⟩ : Txn)
      (by decide) (List.mem_singleton.mpr rfl) (Or.inl (by decide))).2.2

/-- Members of a group produced by groupPairs come from the grouped list
and carry the group's email id. -/
theorem groupPairs_mem {l : List (Order × ℕ)} {g : String × List (Order × ℕ)}
    (hg : g ∈ groupPairs l) : ∀ p ∈ g.2, p ∈ l ∧ p.1.email_id = g.1 := by
  unfold groupPairs at hg
  obtain ⟨e, he, rfl⟩ := List.mem_map.mp hg
  intro p hp
  have hm := List.mem_filter.mp hp
  exact ⟨hm.1, by simpa using hm.2⟩

/-- The group scan of match_transaction never selects an email all of
whose group members have zero shipment total. -/
theorem scanFold_ne {a : ℚ} {used : List String} {e : String} :
    ∀ {gs : List (String × List (Order × ℕ))},
      (∀ g ∈ gs, g.1 = e → ∀ p ∈ g.2, p.1.shipment_total = 0) →
      ∀ b : BestSt, b.best_match ≠ some e →
        (gs.foldl (scanGroupStep a used) b).best_match ≠ some e := by
  intro gs
  induction gs with
  | nil => intro _ b hb; exact hb
  | cons g t ih =>
    intro hz b hb
    simp only [List.foldl_cons]
    have hstep : (scanGroupStep a used b g).best_match ≠ some e := by
      simp only [scanGroupStep]
      split
      · exact hb
      · split
        · exact hb
        · rename_i o0 d0 rest hg2
          split
          · exact hb
          · split
            · rename_i hnz hgt
              simp only [ne_eq, Option.some.injEq]
              intro hge
              exact hnz (hz g (List.mem_cons_self _ _) hge (o0, d0)
                (by rw [hg2]; exact List.mem_cons_self _ _))
            · exact hb
    exact ih (fun g' hg' => hz g' (List.mem_cons_of_mem _ hg')) _ hstep

/-- The type walk of match_transaction never selects an email all of
whose records have zero shipment total. -/
theorem typeLoop_ne {os : List Order} {td : PyDate} {a : ℚ} {used : List String}
    {e : String} (hz : ∀ o ∈ os, o.email_id = e → o.shipment_total = 0) :
    ∀ (tys : List String) (b : BestSt), b.best_match ≠ some e →
      (typeLoop os td a used tys b).best_match ≠ some e := by
  intro tys
  induction tys with
  | nil => intro b hb; exact hb
  | cons ty rest ih =>
    intro b hb
    simp only [typeLoop]
    have hb1 : ((groupPairs (os.filterMap (fun o =>
        if o.email_type != ty then none
        else
          match o.parsed_date with
          | none => none
          | some od =>
            let dd := dateDiffDays td od
            if dd > DATE_MATCHING_WINDOW_DAYS then none else some (o, dd)))).foldl
          (scanGroupStep a used) b).best_match ≠ some e := by
      apply scanFold_ne ?_ b hb
      intro g hg hge p hp
      obtain ⟨hpc, hpe⟩ := groupPairs_mem hg p hp
      obtain ⟨o', ho', hfo⟩ := List.mem_filterMap.mp hpc
      have hp1 : p.1 = o' := by
        split at hfo
        · cases hfo
        · split at hfo
          · cases hfo
          · dsimp only at hfo
            split at hfo
            · cases hfo
            · obtain rfl := Option.some.inj hfo
              rfl
      exact hz p.1 (hp1 ▸ ho') (hpe.trans hge)
    split
    · exact hb1
    · exact ih _ hb1

/-- match_transaction never claims an email all of whose records have
zero shipment total. -/
theorem match_transaction_ne {t : Txn} {os : List Order} {used : List String}
    {e : String} (hz : ∀ o ∈ os, o.email_id = e → o.shipment_total = 0) :
    (match_transaction t os used).email ≠ some e := by
  unfold match_transaction
  cases hpd : parse_date t.Date with
  | none => simp
  | some od =>
    dsimp only
    by_cases hq : |parse_amount t.Amount| = 0
    · rw [if_pos hq]
      simp
    · rw [if_neg hq]
      have hb := @typeLoop_ne os od |parse_amount t.Amount| used e hz
        (if parse_amount t.Amount > 0 then ["return"] else ["shipment", "order"])
        ⟨none, 0, []⟩ (by simp)
      cases hbm : (typeLoop os od |parse_amount t.Amount| used
          (if parse_amount t.Amount > 0 then ["return"] else ["shipment", "order"])
          ⟨none, 0, []⟩).best_match with
      | none => simp
      | some e' =>
        have hne : e' ≠ e := by
          intro heq
          rw [heq] at hbm
          exact hb hbm
        dsimp only
        by_cases h60 : (typeLoop os od |parse_amount t.Amount| used
            (if parse_amount t.Amount > 0 then ["return"] else ["shipment", "order"])
            ⟨none, 0, []⟩).best_score ≥ CONFIDENCE_THRESHOLD_HIGH
        · rw [if_pos h60]
          simpa using hne
        · rw [if_neg h60]
          by_cases h40 : (typeLoop os od |parse_amount t.Amount| used
              (if parse_amount t.Amount > 0 then ["return"] else ["shipment", "order"])
              ⟨none, 0, []⟩).best_score ≥ CONFIDENCE_THRESHOLD_LOW
          · rw [if_pos h40]
            simpa using hne
          · rw [if_neg h40]
            simp

/-- Counterexample to C7 as stated: a shipment whose total is negative
(hence not positive) is scored and recorded as a candidate by the batch
scan, and even claimed by the single-transaction entry point.  The code
only tests the total for falsiness (zero), so a total of -0.50 within
three dollars of the transaction amount passes. -/
theorem C7_counterexample :
    (⟨50, 8, "en", [⟨"en", "shipment", -(1 / 2), "Neg", -(1 / 2), some ⟨2024, 3, 10⟩⟩]⟩ : Cand) ∈
        allMatches [(⟨8, "2024-03-10", "Amazon.com", "", "-1.00", "Chase Sapphire", true, ""⟩ : Txn)]
          [(⟨"en", "shipment", -(1 / 2), "Neg", -(1 / 2), some ⟨2024, 3, 10⟩⟩ : Order)] ∧
      (⟨"en", "shipment", -(1 / 2), "Neg", -(1 / 2), some ⟨2024, 3, 10⟩⟩ : Order).shipment_total < 0 ∧
      (match_transaction (⟨8, "2024-03-10", "Amazon.com", "", "-1.00", "Chase Sapphire", true, ""⟩ : Txn)
          [(⟨"en", "shipment", -(1 / 2), "Neg", -(1 / 2), some ⟨2024, 3, 10⟩⟩ : Order)] []).email =
        some "en" := by
  refine ⟨by decide, by decide, by decide⟩

/-- C7 amended: a shipment is scored and recorded as a candidate only if
it has a nonzero shipment total; a total that is missing, unparseable or
zero (all of which load as 0.0 through safe_float) is silently excluded
from candidacy in both matching entry points. -/
theorem C7_zero_total_excluded (os : List Order) (e : String)
    (hz : ∀ o ∈ os, o.email_id = e → o.shipment_total = 0) :
    (∀ (ts : List Txn) (c : Cand), c ∈ allMatches ts os → c.email_id ≠ e) ∧
      (∀ (t : Txn) (used : List String), (match_transaction t os used).email ≠ some e) ∧
      safe_float "" = 0 ∧ safe_float "n/a" = 0 := by
  refine ⟨?_, ?_, by decide, by decide⟩
  · intro ts c hc heq
    obtain ⟨t', ht', hct'⟩ := mem_allMatches hc
    obtain ⟨-, -, o0, rest, hoe, hnz, -⟩ := candsForTrans_mem hct'
    rw [heq] at hoe
    have ho0 : o0 ∈ ordersByEmail os e := by
      rw [hoe]
      exact List.mem_cons_self _ _
    have hm := List.mem_filter.mp ho0
    have hoe' : o0.email_id = e := by
      have := hm.2
      simp only [Bool.and_eq_true, bne_iff_ne, ne_eq, beq_iff_eq] at this
      exact this.2
    exact hnz (hz o0 hm.1 hoe')
  · intro t used
    exact match_transaction_ne hz

/-- Witness for the amended C7 on a shipment whose only record carries a
zero total. -/
theorem C7_zero_total_excluded_witness :
    (∀ o ∈ [(⟨"ez", "shipment", 0, "Zero", 0, some ⟨2024, 3, 10⟩⟩ : Order)],
        o.email_id = "ez" → o.shipment_total = 0) ∧
      (∀ c ∈ allMatches
          [(⟨7, "2024-03-10", "Amazon.com", "", "-0.50", "Chase Sapphire", true, ""⟩ : Txn)]
          [(⟨"ez", "shipment", 0, "Zero", 0, some ⟨2024, 3, 10⟩⟩ : Order)], c.email_id ≠ "ez") ∧
      (match_transaction
          (⟨7, "2024-03-10", "Amazon.com", "", "-0.50", "Chase Sapphire", true, ""⟩ : Txn)
          [(⟨"ez", "shipment", 0, "Zero", 0, some ⟨2024, 3, 10⟩⟩ : Order)] []).email ≠ some "ez" := by
  have h := C7_zero_total_excluded
    [(⟨"ez", "shipment", 0, "Zero", 0, some ⟨2024, 3, 10⟩⟩ : Order)] "ez" (by decide)
  exact ⟨by decide, fun c hc => h.1 _ c hc, h.2.1 _ []⟩

/-- Every output row contributed by one transaction carries that
transaction's row number as its source_row. -/
theorem rowsForTxn_source_row {summarize : String → String} {az : List ℤ}
    {results : List (ℤ × MatchValue)} {pa : String} {u : Txn} {r : OutputRow}
    (hr : r ∈ rowsForTxn summarize az results pa u) : r.source_row = u.row_number := by
  unfold rowsForTxn at hr
  split at hr
  · split at hr
    · obtain ⟨it, hit, hsome⟩ := List.mem_filterMap.mp hr
      split at hsome
      · cases hsome
      · obtain rfl := Option.some.inj hsome
        rfl
    · rw [List.mem_singleton] at hr
      subst hr
      rfl
  · rw [List.mem_singleton] at hr
    subst hr
    rfl

/-- Filtering the generated output by one transaction's row number
recovers exactly that transaction's contribution, provided row numbers
are distinct. -/
theorem generate_filter_eq (summarize : String → String) (az : List ℤ)
    (results : List (ℤ × MatchValue)) (pa : String) :
    ∀ (l : List Txn) (t : Txn), t ∈ l → (l.map Txn.row_number).Nodup →
      ((l.map (rowsForTxn summarize az results pa)).flatten).filter
          (fun r => r.source_row == t.row_number) =
        rowsForTxn summarize az results pa t := by
  intro l
  induction l with
  | nil => intro t ht _; cases ht
  | cons u rest ih =>
    intro t ht hnd
    simp only [List.map_cons, List.flatten_cons, List.filter_append]
    simp only [List.map_cons, List.nodup_cons] at hnd
    rcases List.mem_cons.mp ht with rfl | ht'
    · have h1 : (rowsForTxn summarize az results pa t).filter
          (fun r => r.source_row == t.row_number) =
          rowsForTxn summarize az results pa t :=
        List.filter_eq_self.mpr (fun r hr => by
          simp [rowsForTxn_source_row hr])
      have h2 : ((rest.map (rowsForTxn summarize az results pa)).flatten).filter
          (fun r => r.source_row == t.row_number) = [] :=
        List.filter_eq_nil_iff.mpr (fun r hr => by
          obtain ⟨lr, hlr, hrlr⟩ := List.mem_flatten.mp hr
          obtain ⟨v, hv, rfl⟩ := List.mem_map.mp hlr
          have hsr := rowsForTxn_source_row hrlr
          simp only [beq_iff_eq, hsr]
          intro heq
          exact hnd.1 (heq ▸ List.mem_map_of_mem Txn.row_number hv))
      rw [h1, h2, List.append_nil]
    · have hne : u.row_number ≠ t.row_number := by
        intro heq
        exact hnd.1 (heq ▸ List.mem_map_of_mem Txn.row_number ht')
      have h1 : (rowsForTxn summarize az results pa u).filter
          (fun r => r.source_row == t.row_number) = [] :=
        List.filter_eq_nil_iff.mpr (fun r hr => by
          simp only [beq_iff_eq, rowsForTxn_source_row hr]
          exact hne)
      rw [h1, List.nil_append]
      exact ih t ht' hnd.2

/-- C9: an Amazon-eligible transaction with an unmatched result whose
description hits the known-pattern table yields exactly one output row
carrying the pattern's clean name and status known_pattern instead of an
unmatched row; in particular the exact description Amazon Prime maps to
the clean name Amazon Prime - Subscription. -/
theorem C9_known_pattern_row (summarize : String → String)
    (all_ts amazon_ts : List Txn) (results : List (ℤ × MatchValue)) (pa : String)
    (t : Txn) (hrows : (all_ts.map Txn.row_number).Nodup) (hmem : t ∈ all_ts)
    (ham : t.row_number ∈ amazon_ts.map Txn.row_number)
    (hres : results.lookup t.row_number = some (none, 0, "unmatched"))
    (clean : String) (hpat : get_known_amazon_pattern t.Description = some clean) :
    (generate_output_rows summarize all_ts amazon_ts results pa).filter
        (fun r => r.source_row == t.row_number) =
      [{ Date := t.Date, Description := clean, Category := t.Category,
         Amount := t.Amount, Account := t.Account, amazon_order_id := "",
         match_confidence := some 0, match_status := "known_pattern",
         source_row := t.row_number, processed_at := pa }] ∧
      get_known_amazon_pattern "Amazon Prime" = some "Amazon Prime - Subscription" := by
  constructor
  · have hrt : rowsForTxn summarize (amazon_ts.map Txn.row_number) results pa t =
        [{ Date := t.Date, Description := clean, Category := t.Category,
           Amount := t.Amount, Account := t.Account, amazon_order_id := "",
           match_confidence := some 0, match_status := "known_pattern",
           source_row := t.row_number, processed_at := pa }] := by
      unfold rowsForTxn
      rw [if_pos ham, hres]
      dsimp only
      rw [hpat]
      simp
    show ((all_ts.map (rowsForTxn summarize (amazon_ts.map Txn.row_number) results pa)).flatten).filter
        (fun r => r.source_row == t.row_number) = _
    rw [generate_filter_eq summarize _ results pa all_ts t hmem hrows, hrt]
  · decide

/-- Witness for C9: the literal Amazon Prime transaction with no
shipment data at all. -/
theorem C9_known_pattern_row_witness :
    (([(⟨2, "2024-03-10", "Amazon Prime", "", "-14.99", "Chase Sapphire", true, ""⟩ : Txn)]).map
        Txn.row_number).Nodup ∧
      ((⟨2, "2024-03-10", "Amazon Prime", "", "-14.99", "Chase Sapphire", true, ""⟩ : Txn) ∈
        [(⟨2, "2024-03-10", "Amazon Prime", "", "-14.99", "Chase Sapphire", true, ""⟩ : Txn)]) ∧
      get_known_amazon_pattern "Amazon Prime" = some "Amazon Prime - Subscription" ∧
      (generate_output_rows id
          [(⟨2, "2024-03-10", "Amazon Prime", "", "-14.99", "Chase Sapphire", true, ""⟩ : Txn)]
          [(⟨2, "2024-03-10", "Amazon Prime", "", "-14.99", "Chase Sapphire", true, ""⟩ : Txn)]
          [((2 : ℤ), ((none : Option (List Order)), (0 : ℤ), "unmatched"))] "ts").filter
          (fun r => r.source_row == (2 : ℤ)) =
        [{ Date := "2024-03-10", Description := "Amazon Prime - Subscription", Category := "",
           Amount := "-14.99", Account := "Chase Sapphire", amazon_order_id := "",
           match_confidence := some 0, match_status := "known_pattern",
           source_row := 2, processed_at := "ts" }] := by
  refine ⟨by decide, List.mem_singleton.mpr rfl, by decide, ?_⟩
  exact (C9_known_pattern_row id
      [(⟨2, "2024-03-10", "Amazon Prime", "", "-14.99", "Chase Sapphire", true, ""⟩ : Txn)]
      [(⟨2, "2024-03-10", "Amazon Prime", "", "-14.99", "Chase Sapphire", true, ""⟩ : Txn)]
      [((2 : ℤ), ((none : Option (List Order)), (0 : ℤ), "unmatched"))] "ts"
      (⟨2, "2024-03-10", "Amazon Prime", "", "-14.99", "Chase Sapphire", true, ""⟩ : Txn)
      (by decide) (List.mem_singleton.mpr rfl) (by decide) (by decide)
      "Amazon Prime - Subscription" (by decide)).1

/-- Transitivity of the boolean less-or-equal string comparison used by
the dedup sort key. -/
theorem strBoolLE_trans {x y z : String}
    (h1 : (decide (x < y) || x == y) = true) (h2 : (decide (y < z) || y == z) = true) :
    (decide (x < z) || x == z) = true := by
  simp only [Bool.or_eq_true, decide_eq_true_eq, beq_iff_eq] at *
  rcases h1 with h1 | rfl
  · rcases h2 with h2 | rfl
    · exact Or.inl (lt_trans h1 h2)
    · exact Or.inl h1
  · exact h2

/-- Totality of the boolean less-or-equal string comparison used by the
dedup sort key. -/
theorem strBoolLE_total (x y : String) :
    (decide (x < y) || x == y) = true ∨ (decide (y < x) || y == x) = true := by
  simp only [Bool.or_eq_true, decide_eq_true_eq, beq_iff_eq]
  rcases lt_trichotomy x y with h | h | h
  · exact Or.inl (Or.inl h)
  · exact Or.inl (Or.inr h)
  · exact Or.inr (Or.inl h)

/-- The dedup selection key order is reflexive. -/
theorem hintKeyLE_refl (a : Txn) : hintKeyLE a a := by
  simp [hintKeyLE]

/-- The dedup selection key order is transitive. -/
theorem hintKeyLE_trans : ∀ (a b c : Txn), hintKeyLE a b → hintKeyLE b c → hintKeyLE a c := by
  intro a b c h1 h2
  unfold hintKeyLE at h1 h2 ⊢
  split_ifs at h1 h2 ⊢ with hab hbc hac <;>
    first
      | exact strBoolLE_trans h1 h2
      | simp_all

/-- The dedup selection key order is total. -/
theorem hintKeyLE_total : ∀ (a b : Txn), hintKeyLE a b || hintKeyLE b a := by
  intro a b
  unfold hintKeyLE
  split_ifs with hab hba <;>
    first
      | (rcases strBoolLE_total a.date_added b.date_added with h | h <;>
          simp only [h, Bool.true_or, Bool.or_true])
      | (simp_all; done)
      | (cases ha : a.has_hint <;> cases hb : b.has_hint <;> simp_all)

/-- The dedup output order is transitive. -/
theorem rowLE_trans : ∀ (a b c : Txn), rowLE a b → rowLE b c → rowLE a c := by
  intro a b c h1 h2
  simp only [rowLE, decide_eq_true_eq] at *
  exact le_trans h1 h2

/-- The dedup output order is total. -/
theorem rowLE_total : ∀ (a b : Txn), rowLE a b || rowLE b a := by
  intro a b
  simp only [rowLE, Bool.or_eq_true, decide_eq_true_eq]
  exact le_total _ _

/-- The key list of the dedup grouping has no repeats. -/
theorem dedupKeys_nodup (ts : List Txn) : (dedupKeys ts).Nodup := by
  unfold dedupKeys
  have hstep : ∀ (l : List Txn) (acc : List (String × String × String × String)), acc.Nodup →
      (l.foldl (fun ks t => if dedup_key t ∈ ks then ks else ks ++ [dedup_key t]) acc).Nodup := by
    intro l
    induction l with
    | nil => intro acc h; exact h
    | cons t rest ih =>
      intro acc h
      simp only [List.foldl_cons]
      apply ih
      by_cases hc : dedup_key t ∈ acc
      · rw [if_pos hc]; exact h
      · rw [if_neg hc]
        exact List.nodup_append.mpr ⟨h, List.nodup_singleton _, by
          intro x hx hx'
          simp only [List.mem_singleton] at hx'
          exact hc (hx' ▸ hx)⟩
  exact hstep ts [] List.nodup_nil

/-- The key fold never drops keys already accumulated. -/
theorem dedupKeys_fold_mono (l : List Txn) :
    ∀ (acc : List (String × String × String × String)), ∀ k ∈ acc,
      k ∈ l.foldl (fun ks t => if dedup_key t ∈ ks then ks else ks ++ [dedup_key t]) acc := by
  induction l with
  | nil => intro acc k hk; exact hk
  | cons t rest ih =>
    intro acc k hk
    simp only [List.foldl_cons]
    apply ih
    by_cases hc : dedup_key t ∈ acc
    · rw [if_pos hc]; exact hk
    · rw [if_neg hc]; exact List.mem_append_left _ hk

/-- Every processed transaction's key is collected. -/
theorem mem_dedupKeys (ts : List Txn) (t : Txn) (ht : t ∈ ts) :
    dedup_key t ∈ dedupKeys ts := by
  unfold dedupKeys
  have hgen : ∀ (l : List Txn) (acc), t ∈ l →
      dedup_key t ∈ l.foldl (fun ks u => if dedup_key u ∈ ks then ks else ks ++ [dedup_key u]) acc := by
    intro l
    induction l with
    | nil => intro acc h; cases h
    | cons u rest ih =>
      intro acc h
      simp only [List.foldl_cons]
      rcases List.mem_cons.mp h with rfl | h'
      · apply dedupKeys_fold_mono
        by_cases hc : dedup_key t ∈ acc
        · rw [if_pos hc]; exact hc
        · rw [if_neg hc]
          exact List.mem_append_right _ (List.mem_singleton.mpr rfl)
      · exact ih _ h'
  exact hgen ts [] ht

/-- Every collected key is the key of some processed transaction. -/
theorem dedupKeys_src (ts : List Txn) : ∀ k ∈ dedupKeys ts, ∃ t ∈ ts, dedup_key t = k := by
  unfold dedupKeys
  have hgen : ∀ (l : List Txn) (acc) (k),
      k ∈ l.foldl (fun ks u => if dedup_key u ∈ ks then ks else ks ++ [dedup_key u]) acc →
      k ∈ acc ∨ ∃ t ∈ l, dedup_key t = k := by
    intro l
    induction l with
    | nil => intro acc k h; exact Or.inl h
    | cons u rest ih =>
      intro acc k h
      simp only [List.foldl_cons] at h
      rcases ih _ k h with h' | ⟨t, ht, rfl⟩
      · by_cases hc : dedup_key u ∈ acc
        · rw [if_pos hc] at h'; exact Or.inl h'
        · rw [if_neg hc] at h'
          rcases List.mem_append.mp h' with h'' | h''
          · exact Or.inl h''
          · exact Or.inr ⟨u, List.mem_cons_self _ _, (List.mem_singleton.mp h'').symm⟩
      · exact Or.inr ⟨t, List.mem_cons_of_mem _ ht, rfl⟩
  intro k hk
  rcases hgen ts [] k hk with h | h
  · cases h
  · exact h

/-- The last element of a list sorted by a reflexive pairwise relation
dominates every element. -/
theorem pairwise_getLast {R : Txn → Txn → Prop} (hrefl : ∀ u, R u u) :
    ∀ (L : List Txn) (r : Txn), L.Pairwise R → L.getLast? = some r → ∀ u ∈ L, R u r := by
  intro L
  induction L with
  | nil => intro r _ h; cases h
  | cons a t ih =>
    intro r hp hl u hu
    rcases List.pairwise_cons.mp hp with ⟨ha, hp'⟩
    cases t with
    | nil =>
      obtain rfl : a = r := by simpa using hl
      obtain rfl : u = a := List.mem_singleton.mp hu
      exact hrefl _
    | cons b t' =>
      have hl' : (b :: t').getLast? = some r := by
        rw [← List.getLast?_cons_cons]
        exact hl
      rcases List.mem_cons.mp hu with rfl | hu'
      · have hrm : r ∈ b :: t' := List.mem_of_mem_getLast? hl'
        exact ha r hrm
      · exact ih r hp' hl' u hu'

/-- The selected best row of a dedup group is a member of the group. -/
theorem pickBest_mem {rows : List Txn} {r : Txn} (h : pickBest rows = some r) :
    r ∈ rows := by
  unfold pickBest at h
  split at h
  · cases h
  · obtain rfl := Option.some.inj h
    exact List.mem_singleton.mpr rfl
  · exact List.mem_mergeSort.mp (List.mem_of_mem_getLast? h)

/-- A nonempty dedup group selects some best row. -/
theorem pickBest_isSome {rows : List Txn} (h : rows ≠ []) : (pickBest rows).isSome := by
  unfold pickBest
  split
  · simp_all
  · simp
  · rw [Option.isSome_iff_ne_none]
    intro hn
    rw [List.getLast?_eq_none_iff] at hn
    have := congrArg List.length hn
    simp only [List.length_mergeSort, List.length_nil] at this
    exact h (List.eq_nil_of_length_eq_zero this)

/-- The selected best row of a dedup group dominates every group member
under the hint/date-added key. -/
theorem pickBest_max {rows : List Txn} {r : Txn} (h : pickBest rows = some r) :
    ∀ u ∈ rows, hintKeyLE u r := by
  unfold pickBest at h
  split at h
  · cases h
  · obtain rfl := Option.some.inj h
    intro u hu
    rw [List.mem_singleton.mp hu]
    exact hintKeyLE_refl _
  · intro u hu
    have hs := List.sorted_mergeSort hintKeyLE_trans hintKeyLE_total rows
    exact pairwise_getLast (fun v => hintKeyLE_refl v) _ r hs h u
      (List.mem_mergeSort.mpr hu)

/-- Over a repeat-free key list whose images keep their key, filtering
the selected rows by one present key leaves exactly that key's selected
row. -/
theorem filterMap_key_filter
    {f : (String × String × String × String) → Option Txn} :
    ∀ {KS : List (String × String × String × String)},
      (∀ k ∈ KS, ∀ d, f k = some d → dedup_key d = k) → KS.Nodup →
      ∀ {K}, K ∈ KS → ∀ {dK}, f K = some dK →
        (KS.filterMap f).filter (fun d => decide (dedup_key d = K)) = [dK] := by
  intro KS
  induction KS with
  | nil => intro _ _ _ hK; cases hK
  | cons k t ih =>
    intro hf hnd K hK dK hfK
    rcases List.nodup_cons.mp hnd with ⟨hknot, hnd'⟩
    rcases List.mem_cons.mp hK with rfl | hK'
    · rw [List.filterMap_cons_some hfK]
      have hpos : (decide (dedup_key dK = K)) = true := by
        simp [hf K (List.mem_cons_self _ _) dK hfK]
      have hcons : (dK :: t.filterMap f).filter (fun d => decide (dedup_key d = K)) =
          dK :: (t.filterMap f).filter (fun d => decide (dedup_key d = K)) := by
        rw [List.filter_cons]
        simp only [hpos, if_true]
      rw [hcons]
      have hrest : (t.filterMap f).filter (fun d => decide (dedup_key d = K)) = [] :=
        List.filter_eq_nil_iff.mpr (fun d hd => by
          obtain ⟨k', hk', hfk'⟩ := List.mem_filterMap.mp hd
          have hkey := hf k' (List.mem_cons_of_mem _ hk') d hfk'
          simp only [decide_eq_true_eq]
          intro heq
          exact hknot ((hkey ▸ heq) ▸ hk'))
      rw [hrest]
    · have hkK : k ≠ K := fun heq => hknot (heq ▸ hK')
      cases hfk : f k with
      | none =>
        rw [List.filterMap_cons_none hfk]
        exact ih (fun k' hk' => hf k' (List.mem_cons_of_mem _ hk')) hnd' hK' hfK
      | some d =>
        rw [List.filterMap_cons_some hfk]
        have hneg : (decide (dedup_key d = K)) = false := by
          simp only [decide_eq_false_iff_not]
          intro heq
          exact hkK ((hf k (List.mem_cons_self _ _) d hfk) ▸ heq)
        have hcons : (d :: t.filterMap f).filter (fun u => decide (dedup_key u = K)) =
            (t.filterMap f).filter (fun u => decide (dedup_key u = K)) := by
          rw [List.filter_cons]
          simp only [hneg, Bool.false_eq_true, if_false]
        rw [hcons]
        exact ih (fun k' hk' => hf k' (List.mem_cons_of_mem _ hk')) hnd' hK' hfK

/-- C8: for the dedup group of any loaded transaction exactly one row is
kept; every kept row comes from the input and dominates its whole group
under the (has hint, latest date added) key, so a hinted row beats an
unhinted one and remaining ties go to the latest date added; and the
returned list is ordered by original row number. -/
theorem C8_dedup_keeps_best (ts : List Txn) (t : Txn) (ht : t ∈ ts) :
    ((dedup_plaid_transactions ts).filter
        (fun u => decide (dedup_key u = dedup_key t))).length = 1 ∧
      (∀ d ∈ dedup_plaid_transactions ts, d ∈ ts ∧
        ∀ u ∈ ts, dedup_key u = dedup_key d → hintKeyLE u d) ∧
      (dedup_plaid_transactions ts).Pairwise (fun a b => a.row_number ≤ b.row_number) := by
  have hgmem : t ∈ dedupGroup ts (dedup_key t) :=
    List.mem_filter.mpr ⟨ht, by simp⟩
  have hgne : dedupGroup ts (dedup_key t) ≠ [] := by
    intro h
    rw [h] at hgmem
    cases hgmem
  obtain ⟨dK, hdK⟩ := Option.isSome_iff_exists.mp (pickBest_isSome hgne)
  have hf : ∀ k ∈ dedupKeys ts, ∀ d, pickBest (dedupGroup ts k) = some d →
      dedup_key d = k := by
    intro k _ d hd
    exact of_decide_eq_true (List.mem_filter.mp (pickBest_mem hd)).2
  refine ⟨?_, ?_, ?_⟩
  · have hsing := filterMap_key_filter hf (dedupKeys_nodup ts) (mem_dedupKeys ts t ht) hdK
    have hperm := (List.mergeSort_perm
        ((dedupKeys ts).filterMap (fun k => pickBest (dedupGroup ts k))) rowLE).filter
      (fun u => decide (dedup_key u = dedup_key t))
    show (((((dedupKeys ts).filterMap (fun k => pickBest (dedupGroup ts k))).mergeSort
        rowLE)).filter (fun u => decide (dedup_key u = dedup_key t))).length = 1
    rw [hperm.length_eq, hsing]
    rfl
  · intro d hd
    have hdpre : d ∈ (dedupKeys ts).filterMap (fun k => pickBest (dedupGroup ts k)) :=
      List.mem_mergeSort.mp hd
    obtain ⟨k, hk, hfk⟩ := List.mem_filterMap.mp hdpre
    have hdm := pickBest_mem hfk
    have hdts : d ∈ ts := (List.mem_filter.mp hdm).1
    have hkey : dedup_key d = k := of_decide_eq_true (List.mem_filter.mp hdm).2
    refine ⟨hdts, ?_⟩
    intro u hu hueq
    have hug : u ∈ dedupGroup ts k :=
      List.mem_filter.mpr ⟨hu, by simp [hueq, hkey]⟩
    exact pickBest_max hfk u hug
  · have hs := List.sorted_mergeSort rowLE_trans rowLE_total
      ((dedupKeys ts).filterMap (fun k => pickBest (dedupGroup ts k)))
    exact hs.imp (fun h => by
      simpa only [rowLE, decide_eq_true_eq] using h)

/-- Witness for C8 on the three-row duplicate group: rows 2 and 4 lack a
hint, row 3 has one, and only one row with that key survives. -/
theorem C8_dedup_keeps_best_witness :
    ((⟨3, "2024-03-10", "AMAZON.COM*ABCDEFGHIJKL two", "", "-41.03", "Chase", true,
        "2024-03-10 02:00:00"⟩ : Txn) ∈
      [(⟨2, "2024-03-10", "AMAZON.COM*ABCDEFGHIJKL one", "", "-41.03", "Chase", false,
          "2024-03-10 01:00:00"⟩ : Txn),
        ⟨3, "2024-03-10", "AMAZON.COM*ABCDEFGHIJKL two", "", "-41.03", "Chase", true,
          "2024-03-10 02:00:00"⟩,
        ⟨4, "2024-03-10", "AMAZON.COM*ABCDEFGHIJKL thr", "", "-41.03", "Chase", false,
          "2024-03-10 03:00:00"⟩]) ∧
      ((dedup_plaid_transactions
          [(⟨2, "2024-03-10", "AMAZON.COM*ABCDEFGHIJKL one", "", "-41.03", "Chase", false,
              "2024-03-10 01:00:00"⟩ : Txn),
            ⟨3, "2024-03-10", "AMAZON.COM*ABCDEFGHIJKL two", "", "-41.03", "Chase", true,
              "2024-03-10 02:00:00"⟩,
            ⟨4, "2024-03-10", "AMAZON.COM*ABCDEFGHIJKL thr", "", "-41.03", "Chase", false,
              "2024-03-10 03:00:00"⟩]).filter
          (fun u => decide (dedup_key u = dedup_key
            (⟨3, "2024-03-10", "AMAZON.COM*ABCDEFGHIJKL two", "", "-41.03", "Chase", true,
              "2024-03-10 02:00:00"⟩ : Txn)))).length = 1 := by
  constructor
  · exact List.mem_cons_of_mem _ (List.mem_cons_self _ _)
  · exact (C8_dedup_keeps_best
      [(⟨2, "2024-03-10", "AMAZON.COM*ABCDEFGHIJKL one", "", "-41.03", "Chase", false,
          "2024-03-10 01:00:00"⟩ : Txn),
        ⟨3, "2024-03-10", "AMAZON.COM*ABCDEFGHIJKL two", "", "-41.03", "Chase", true,
          "2024-03-10 02:00:00"⟩,
        ⟨4, "2024-03-10", "AMAZON.COM*ABCDEFGHIJKL thr", "", "-41.03", "Chase", false,
          "2024-03-10 03:00:00"⟩]
      (⟨3, "2024-03-10", "AMAZON.COM*ABCDEFGHIJKL two", "", "-41.03", "Chase", true,
        "2024-03-10 02:00:00"⟩ : Txn)
      (List.mem_cons_of_mem _ (List.mem_cons_self _ _))).1

end TransactionMatcher
